import Mathlib

/-
  Verification of the nexus-storage Raft core against its specification.

  The Rust sources under nexus-storage/src/raft are shallowly embedded:
  u64 becomes Nat (Rust's u64 `saturating_sub` is Nat subtraction; an
  unchecked `a - b` with b > a is a panic and is modelled by Option.none),
  HashMap<NodeId, u64> becomes an association list with at most one binding
  per key, HashSet<NodeId> becomes a duplicate-free list, Instant becomes a
  Nat timestamp (functions that read Instant::now() take an explicit `now`
  argument), and byte payloads become lists of naturals.
-/

set_option linter.unusedVariables false

namespace Nexus

/-- Byte payloads (Vec<u8>) are modelled as lists of naturals. -/
abbrev Bytes := List Nat

/-- log.rs: type of a log entry (Command / Configuration / Noop). -/
inductive LogEntryType where
  | Command
  | Configuration
  | Noop
deriving DecidableEq

/-- log.rs: a single entry of the Raft log. -/
structure LogEntry where
  term : Nat
  index : Nat
  entry_type : LogEntryType
  data : Bytes
deriving DecidableEq

/-- log.rs: the log of one node, with its own commit_index and last_applied
fields (`RaftNode` in node.rs carries a second, separate commit_index). -/
structure RaftLog where
  entries : List LogEntry
  commit_index : Nat
  last_applied : Nat
deriving DecidableEq

/-- log.rs RaftLog::new. -/
def RaftLog.new : RaftLog := ⟨[], 0, 0⟩

/-- log.rs RaftLog::append: push at the tail, no validation. -/
def RaftLog.append (l : RaftLog) (e : LogEntry) : RaftLog :=
  { l with entries := l.entries ++ [e] }

/-- log.rs RaftLog::get: linear search for an entry with the given Raft index. -/
def RaftLog.get (l : RaftLog) (index : Nat) : Option LogEntry :=
  l.entries.find? (fun e => e.index == index)

/-- log.rs RaftLog::last_index: index of the last entry, 0 when empty. -/
def RaftLog.lastIndex (l : RaftLog) : Nat :=
  (l.entries.getLast?.map LogEntry.index).getD 0

/-- log.rs RaftLog::last_term: term of the last entry, 0 when empty. -/
def RaftLog.lastTerm (l : RaftLog) : Nat :=
  (l.entries.getLast?.map LogEntry.term).getD 0

/-- Model of HashMap<NodeId, u64>: association list, one binding per key. -/
abbrev NodeMap := List (String × Nat)

/-- HashMap::get. -/
def mapGet (m : NodeMap) (k : String) : Option Nat :=
  (m.find? (fun p => p.1 == k)).map Prod.snd

/-- HashMap::insert: replace the binding if present, else add one. -/
def mapInsert (m : NodeMap) (k : String) (v : Nat) : NodeMap :=
  match m with
  | [] => [(k, v)]
  | p :: rest => if p.1 == k then (k, v) :: rest else p :: mapInsert rest k v

/-- HashMap::values. -/
def mapValues (m : NodeMap) : List Nat := m.map Prod.snd

/-- Model of HashSet<NodeId>::insert on a duplicate-free list. -/
def setInsert (s : List String) (x : String) : List String :=
  if s.contains x then s else s ++ [x]

/-- node.rs: role of the node in the cluster. -/
inductive NodeRole where
  | Follower
  | Candidate
  | Leader
deriving DecidableEq

/-- rpc.rs AppendEntriesRequest. -/
structure AppendEntriesRequest where
  term : Nat
  leader_id : String
  prev_log_index : Nat
  prev_log_term : Nat
  entries : List LogEntry
  leader_commit : Nat
deriving DecidableEq

/-- rpc.rs AppendEntriesResponse. -/
structure AppendEntriesResponse where
  term : Nat
  success : Bool
deriving DecidableEq

/-- node.rs RaftNode (the boxed state machine field is passed separately to
the apply loop, matching how apply_committed_entries takes `sm` by
argument). -/
structure RaftNode where
  id : String
  current_term : Nat
  voted_for : Option String
  role : NodeRole
  commit_index : Nat
  log : RaftLog
  peers : List String
  election_timeout : Nat
  last_heartbeat : Nat
  votes_received : List String
  next_index : NodeMap
  match_index : NodeMap
deriving DecidableEq

/-- node.rs become_follower: step down at the given term; Instant::now() is
the `now` argument. -/
def become_follower (n : RaftNode) (term : Nat) (now : Nat) : RaftNode :=
  { n with role := NodeRole.Follower, current_term := term, voted_for := none,
           last_heartbeat := now, votes_received := [] }

/-- node.rs send_heartbeat: only resets the heartbeat instant (the broadcast
is a println placeholder in the source). -/
def send_heartbeat (n : RaftNode) (now : Nat) : RaftNode :=
  { n with last_heartbeat := now }

/-- node.rs become_leader: set role to Leader and call send_heartbeat. -/
def become_leader (n : RaftNode) (now : Nat) : RaftNode :=
  send_heartbeat { n with role := NodeRole.Leader } now

/-- node.rs receive_vote. -/
def receive_vote (n : RaftNode) (voter_id : String) (term : Nat)
    (vote_granted : Bool) (now : Nat) : RaftNode :=
  if term > n.current_term then become_follower n term now
  else if n.role ≠ NodeRole.Candidate ∨ term < n.current_term then n
  else if vote_granted then
    let votes := setInsert n.votes_received voter_id
    let n1 := { n with votes_received := votes }
    let majority := (n.peers.length + 1) / 2 + 1
    if votes.length ≥ majority then become_leader n1 now else n1
  else n

/-- node.rs handle_append_entries, step 4 loop body: overwrite a conflicting
entry (retain indexes strictly below, then append), append a missing entry,
keep a matching one. -/
def replicate_entry (log : RaftLog) (e : LogEntry) : RaftLog :=
  match log.get e.index with
  | some existing =>
    if existing.term ≠ e.term then
      RaftLog.append
        { log with entries := log.entries.filter (fun x => x.index < e.index) } e
    else log
  | none => RaftLog.append log e

/-- node.rs handle_append_entries. Note that step 5 reads and writes the
log's own commit_index field, not the node-level commit_index field. -/
def handle_append_entries (n : RaftNode) (req : AppendEntriesRequest) :
    RaftNode × AppendEntriesResponse :=
  if req.term < n.current_term then
    (n, ⟨n.current_term, false⟩)
  else
    let n1 :=
      if req.term > n.current_term then
        { n with current_term := req.term, voted_for := none, role := NodeRole.Follower }
      else n
    let prev_ok :=
      if req.prev_log_index > 0 then
        match n1.log.get req.prev_log_index with
        | some e => e.term == req.prev_log_term
        | none => false
      else true
    if prev_ok then
      let log2 := req.entries.foldl replicate_entry n1.log
      let log3 :=
        if req.leader_commit > log2.commit_index then
          { log2 with commit_index := min req.leader_commit log2.lastIndex }
        else log2
      ({ n1 with log := log3 }, ⟨n1.current_term, true⟩)
    else
      (n1, ⟨n1.current_term, false⟩)

/-- The sort used by update_commit_index: sort_by(|a, b| b.cmp(a)), i.e.
descending order. -/
def sort_desc (l : List Nat) : List Nat := List.insertionSort (· ≥ ·) l

/-- node.rs update_commit_index. The source indexes the sorted vector at
position `majority` with the panicking indexing operator; an out-of-bounds
access is modelled as none. -/
def update_commit_index (n : RaftNode) : Option RaftNode :=
  let match_indexes := sort_desc (mapValues n.match_index ++ [n.log.lastIndex])
  let majority := (n.peers.length + 1) / 2
  match match_indexes.get? majority with
  | none => none
  | some new_commit =>
    if new_commit > n.commit_index then
      match n.log.get new_commit with
      | some entry =>
        if entry.term = n.current_term then
          some { n with commit_index := new_commit }
        else some n
      | none => some n
    else some n

/-- node.rs handle_append_entries_response. On success the source computes
`sent_idx - 1` on u64, which panics when the stored next_index is 0; the
panic is modelled as none. On failure it stores `next.saturating_sub(1)`,
which is Nat subtraction. -/
def handle_append_entries_response (n : RaftNode) (sender : String)
    (resp : AppendEntriesResponse) (now : Nat) : Option RaftNode :=
  if resp.term > n.current_term then some (become_follower n resp.term now)
  else if resp.success then
    let sent_idx := (mapGet n.next_index sender).getD 1
    if sent_idx = 0 then none
    else
      update_commit_index
        { n with match_index := mapInsert n.match_index sender (sent_idx - 1),
                 next_index := mapInsert n.next_index sender sent_idx }
  else
    let next := (mapGet n.next_index sender).getD 1
    some { n with next_index := mapInsert n.next_index sender (next - 1) }

/-- node.rs send_heartbeats, loop body for one peer: the request that would
be sent. The source computes `next_idx - 1` on u64, which panics when the
stored next_index is 0; the panic is modelled as none. -/
def heartbeat_request (n : RaftNode) (peer : String) : Option AppendEntriesRequest :=
  let next_idx := (mapGet n.next_index peer).getD 1
  if next_idx = 0 then none
  else
    some ⟨n.current_term, n.id, next_idx - 1,
          ((n.log.get (next_idx - 1)).map LogEntry.term).getD 0, [], n.commit_index⟩

/-- node.rs append_entry: leader-side append of a client command; also
records self in match_index / next_index. Returns the new index. -/
def append_entry (n : RaftNode) (data : Bytes) : RaftNode × Nat :=
  let index := n.log.lastIndex + 1
  let entry : LogEntry := ⟨n.current_term, index, LogEntryType.Command, data⟩
  ({ n with log := n.log.append entry,
            match_index := mapInsert n.match_index n.id index,
            next_index := mapInsert n.next_index n.id (index + 1) }, index)

/-- state_machine.rs KvCommand. -/
inductive KvCommand where
  | Set (key value : String)
  | Get (key : String)
  | Delete (key : String)
deriving DecidableEq

/-- state_machine.rs KvResponse. -/
inductive KvResponse where
  | Value (v : Option String)
  | Ack
deriving DecidableEq

/-- HashMap<String, String>::insert on the association-list model. -/
def kvInsert (d : List (String × String)) (k v : String) : List (String × String) :=
  match d with
  | [] => [(k, v)]
  | p :: rest => if p.1 == k then (k, v) :: rest else p :: kvInsert rest k v

/-- HashMap<String, String>::remove on the association-list model. -/
def kvRemove (d : List (String × String)) (k : String) : List (String × String) :=
  d.filter (fun p => !(p.1 == k))

/-- HashMap<String, String>::get on the association-list model. -/
def kvLookup (d : List (String × String)) (k : String) : Option String :=
  (d.find? (fun p => p.1 == k)).map Prod.snd

/-- state_machine.rs KeyValueStore: the in-memory key-value store. -/
structure KeyValueStore where
  data : List (String × String)
deriving DecidableEq

/-- state_machine.rs KeyValueStore::get. -/
def KeyValueStore.get (s : KeyValueStore) (key : String) : Option String :=
  kvLookup s.data key

/-- state_machine.rs KeyValueStore::apply. -/
def KeyValueStore.apply (s : KeyValueStore) (c : KvCommand) : KeyValueStore × KvResponse :=
  match c with
  | KvCommand.Set k v => (⟨kvInsert s.data k v⟩, KvResponse.Ack)
  | KvCommand.Get k => (s, KvResponse.Value (kvLookup s.data k))
  | KvCommand.Delete k => (⟨kvRemove s.data k⟩, KvResponse.Ack)

/-- state_machine.rs KeyValueStore::snapshot, parameterized by the external
bincode serializer (`enc`), which is not part of this repository. -/
def KeyValueStore.snapshot {β : Type} (enc : List (String × String) → β)
    (s : KeyValueStore) : β :=
  enc s.data

/-- state_machine.rs KeyValueStore::restore, parameterized by the external
bincode deserializer (`dec`); none models the Err case. -/
def KeyValueStore.restore {β : Type} (dec : β → Option (List (String × String)))
    (s : KeyValueStore) (snap : β) : Option KeyValueStore :=
  (dec snap).map (fun d => { s with data := d })

/-- Applying a whole command sequence in order, from state_machine.rs apply. -/
def apply_all (S : List KvCommand) (s : KeyValueStore) : KeyValueStore :=
  S.foldl (fun st c => (st.apply c).1) s

/-- node.rs apply_committed_entries, treatment of the entry read at index
`next`: a Command is decoded and applied to the state machine, a failed
decode is reported on stderr (collected in the error list), any other kind
leaves the state machine alone. The `decode` argument stands for the
external bincode deserializer. -/
def apply_entry_once (decode : Bytes → Option KvCommand) (sm : KeyValueStore)
    (errs : List Nat) (next : Nat) (e : LogEntry) : KeyValueStore × List Nat :=
  if e.entry_type = LogEntryType.Command then
    match decode e.data with
    | some c => ((sm.apply c).1, errs)
    | none => (sm, errs ++ [next])
  else (sm, errs)

/-- node.rs apply_committed_entries, while loop unrolled on explicit fuel.
Results are the updated log (last_applied advanced), the state machine, and
the list of indexes reported on stderr as deserialization failures. -/
def apply_go (decode : Bytes → Option KvCommand) (ci : Nat) :
    Nat → RaftLog → KeyValueStore → List Nat → RaftLog × KeyValueStore × List Nat
  | 0, log, sm, errs => (log, sm, errs)
  | fuel + 1, log, sm, errs =>
    if log.last_applied < ci then
      match log.get (log.last_applied + 1) with
      | some e =>
        apply_go decode ci fuel { log with last_applied := log.last_applied + 1 }
          (apply_entry_once decode sm errs (log.last_applied + 1) e).1
          (apply_entry_once decode sm errs (log.last_applied + 1) e).2
      | none => (log, sm, errs)
    else (log, sm, errs)

/-- node.rs apply_committed_entries. The while loop increments last_applied
on every iteration that does not break, so `commit_index - last_applied`
units of fuel are exactly the iterations the source can perform. The loop
bound is the node-level commit_index field, while the counter is the log's
last_applied field, as in the source. -/
def apply_committed_entries (decode : Bytes → Option KvCommand) (n : RaftNode)
    (sm : KeyValueStore) : RaftLog × KeyValueStore × List Nat :=
  apply_go decode n.commit_index (n.commit_index - n.log.last_applied) n.log sm []

/-- Modelled from the spec: the pending indexes last_applied+1 .. commit_index
in increasing order. -/
def pending_indices (la ci : Nat) : List Nat :=
  (List.range (ci - la)).map (fun k => la + 1 + k)

/-- Modelled from the spec: the apply loop's treatment of one committed
entry. A Command whose payload deserializes is applied to the state machine;
Noop and Configuration advance without a state-machine apply; a Command
whose payload fails to deserialize is recorded as an error. -/
def spec_apply_entry (decode : Bytes → Option KvCommand)
    (acc : KeyValueStore × List Nat) (e : LogEntry) : KeyValueStore × List Nat :=
  if e.entry_type = LogEntryType.Command then
    match decode e.data with
    | some c => ((acc.1.apply c).1, acc.2)
    | none => (acc.1, acc.2 ++ [e.index])
  else acc

/-- Modelled from the spec: folding the apply-loop treatment over a list of
entries in order. -/
def spec_apply_all (decode : Bytes → Option KvCommand) (entries : List LogEntry)
    (acc : KeyValueStore × List Nat) : KeyValueStore × List Nat :=
  entries.foldl (spec_apply_entry decode) acc


/-! Helper lemmas about the embedded container operations. -/

lemma mapGet_mapInsert_self (m : NodeMap) (k : String) (v : Nat) :
    mapGet (mapInsert m k v) k = some v := by
  induction m with
  | nil => simp [mapInsert, mapGet]
  | cons p rest ih =>
    by_cases h : p.1 == k
    · simp [mapInsert, h, mapGet]
    · simp only [mapInsert, h, Bool.false_eq_true, if_false]
      simpa [mapGet, List.find?, h] using ih

lemma get_index_of_log_get (l : RaftLog) (i : Nat) (e : LogEntry)
    (h : l.get i = some e) : e.index = i := by
  unfold RaftLog.get at h
  have := List.find?_some h
  simpa using this

lemma countP_sort_desc (l : List Nat) (p : Nat → Bool) :
    (sort_desc l).countP p = l.countP p :=
  (List.perm_insertionSort _ l).countP_eq p

lemma sorted_sort_desc (l : List Nat) : (sort_desc l).Sorted (· ≥ ·) :=
  List.sorted_insertionSort _ l

lemma count_le_of_sorted_get (l : List Nat) :
    ∀ k v, l.Sorted (· ≥ ·) → l.get? k = some v →
      k + 1 ≤ l.countP (fun x => decide (v ≤ x)) := by
  induction l with
  | nil => intro k v _ h; simp at h
  | cons a t ih =>
    intro k v hs h
    rcases List.sorted_cons.mp hs with ⟨ha, ht⟩
    cases k with
    | zero =>
      simp only [List.get?] at h
      injection h with h
      subst h
      rw [List.countP_cons]
      simp
    | succ k =>
      simp only [List.get?] at h
      have hv : v ∈ t := List.get?_mem h
      have hav : v ≤ a := ha v hv
      have hcount := ih k v ht h
      rw [List.countP_cons]
      simp only [hav, decide_True, if_true]
      omega

lemma mem_pending_indices (la ci i : Nat) :
    i ∈ pending_indices la ci ↔ la < i ∧ i ≤ ci := by
  simp only [pending_indices, List.mem_map, List.mem_range]
  constructor
  · rintro ⟨k, hk, rfl⟩; omega
  · rintro ⟨h1, h2⟩; exact ⟨i - la - 1, by omega, by omega⟩

lemma pending_indices_cons (la ci : Nat) (h : la < ci) :
    pending_indices la ci = (la + 1) :: pending_indices (la + 1) ci := by
  unfold pending_indices
  have hr : ci - la = (ci - (la + 1)) + 1 := by omega
  rw [hr, List.range_succ_eq_map, List.map_cons, List.map_map]
  congr 1
  apply List.map_congr_left
  intro a ha
  simp [Function.comp]
  omega

lemma pending_indices_increasing (la ci : Nat) :
    (pending_indices la ci).Pairwise (· < ·) := by
  unfold pending_indices
  rw [List.pairwise_map]
  exact (List.pairwise_lt_range _).imp (by intro a b h; omega)

lemma update_commit_index_spec (n r : RaftNode)
    (h : update_commit_index n = some r) :
    r.id = n.id ∧ r.current_term = n.current_term ∧ r.voted_for = n.voted_for ∧
    r.role = n.role ∧ r.log = n.log ∧ r.peers = n.peers ∧
    r.last_heartbeat = n.last_heartbeat ∧ r.votes_received = n.votes_received ∧
    r.next_index = n.next_index ∧ r.match_index = n.match_index ∧
    (r.commit_index = n.commit_index ∨
      (n.commit_index < r.commit_index ∧
       (∃ e, n.log.get r.commit_index = some e ∧ e.term = n.current_term) ∧
       (sort_desc (mapValues n.match_index ++ [n.log.lastIndex])).get?
           ((n.peers.length + 1) / 2) = some r.commit_index)) := by
  simp only [update_commit_index] at h
  split at h
  · exact absurd h (by simp)
  · rename_i new_commit hg
    split at h
    · rename_i hgt
      split at h
      · rename_i entry he
        split at h
        · rename_i hterm
          injection h with h
          subst h
          exact ⟨rfl, rfl, rfl, rfl, rfl, rfl, rfl, rfl, rfl, rfl,
                 Or.inr ⟨hgt, ⟨entry, he, hterm⟩, hg⟩⟩
        · injection h with h
          subst h
          exact ⟨rfl, rfl, rfl, rfl, rfl, rfl, rfl, rfl, rfl, rfl, Or.inl rfl⟩
      · injection h with h
        subst h
        exact ⟨rfl, rfl, rfl, rfl, rfl, rfl, rfl, rfl, rfl, rfl, Or.inl rfl⟩
    · injection h with h
      subst h
      exact ⟨rfl, rfl, rfl, rfl, rfl, rfl, rfl, rfl, rfl, rfl, Or.inl rfl⟩

lemma apply_go_spec (decode : Bytes → Option KvCommand) (ci : Nat) :
    ∀ fuel (log : RaftLog) (sm : KeyValueStore) (errs : List Nat),
      fuel = ci - log.last_applied →
      log.last_applied ≤ ci →
      (∀ i ∈ pending_indices log.last_applied ci, (log.get i).isSome) →
      apply_go decode ci fuel log sm errs =
        ({ log with last_applied := ci },
         spec_apply_all decode ((pending_indices log.last_applied ci).filterMap log.get)
           (sm, errs)) := by
  intro fuel
  induction fuel with
  | zero =>
    intro log sm errs hf hle hsome
    have heq : ci = log.last_applied := by omega
    subst heq
    simp [apply_go, pending_indices, spec_apply_all]
  | succ fuel ih =>
    intro log sm errs hf hle hsome
    have hlt : log.last_applied < ci := by omega
    have hmem : (log.last_applied + 1) ∈ pending_indices log.last_applied ci := by
      rw [mem_pending_indices]; omega
    obtain ⟨e, he⟩ := Option.isSome_iff_exists.mp (hsome _ hmem)
    have hidx : e.index = log.last_applied + 1 := get_index_of_log_get _ _ _ he
    have hget' : ∀ i, ({ log with last_applied := log.last_applied + 1 } : RaftLog).get i
        = log.get i := fun _ => rfl
    unfold apply_go
    rw [if_pos hlt, he]
    show apply_go decode ci fuel { log with last_applied := log.last_applied + 1 }
          (apply_entry_once decode sm errs (log.last_applied + 1) e).1
          (apply_entry_once decode sm errs (log.last_applied + 1) e).2 = _
    rw [ih { log with last_applied := log.last_applied + 1 }
         (apply_entry_once decode sm errs (log.last_applied + 1) e).1
         (apply_entry_once decode sm errs (log.last_applied + 1) e).2
         (by show fuel = ci - (log.last_applied + 1); omega)
         (by show log.last_applied + 1 ≤ ci; omega)
         (by intro i hi
             rw [hget']
             have hi' : log.last_applied + 1 < i ∧ i ≤ ci := (mem_pending_indices _ _ _).mp hi
             exact hsome i ((mem_pending_indices _ _ _).mpr (by omega)))]
    rw [pending_indices_cons _ _ hlt]
    simp only [List.filterMap_cons, he]
    have hstep : spec_apply_entry decode (sm, errs) e
        = apply_entry_once decode sm errs (log.last_applied + 1) e := by
      unfold spec_apply_entry apply_entry_once
      rw [hidx]
    have hfold : spec_apply_all decode
        (e :: (pending_indices (log.last_applied + 1) ci).filterMap log.get) (sm, errs)
        = spec_apply_all decode ((pending_indices (log.last_applied + 1) ci).filterMap log.get)
            (spec_apply_entry decode (sm, errs) e) := rfl
    have hgetf : ({ log with last_applied := log.last_applied + 1 } : RaftLog).get = log.get :=
      funext hget'
    rw [hgetf, hfold, hstep]

/-! Claim C1: leader commit advancement. -/

/-- C1 (amended): when handle_append_entries_response processes a success
reply (no step-down, no panic), the commit index either stays unchanged or
advances to an index that has an entry of the current term and whose value
is at or below the match_index of at least floor(cluster/2) + 1 cluster
members (peers through the updated match_index map, the leader through its
last log index). The handler examines only the single order statistic at
position floor((peers+1)/2) of the descending-sorted match indexes; it does
not search for the largest index meeting both the majority and the term
condition, so a smaller qualifying index is not committed. -/
theorem c1_commit_advance_guard (n : RaftNode) (sender : String)
    (resp : AppendEntriesResponse) (now : Nat) (r : RaftNode)
    (hsucc : resp.success = true)
    (hterm : ¬ resp.term > n.current_term)
    (h : handle_append_entries_response n sender resp now = some r) :
    r.commit_index = n.commit_index ∨
      (n.commit_index < r.commit_index ∧
       (∃ e, n.log.get r.commit_index = some e ∧ e.term = n.current_term) ∧
       (n.peers.length + 1) / 2 + 1 ≤
         (mapValues r.match_index ++ [n.log.lastIndex]).countP
           (fun x => decide (r.commit_index ≤ x))) := by
  simp only [handle_append_entries_response, hsucc] at h
  rw [if_neg hterm, if_pos trivial] at h
  by_cases h0 : (mapGet n.next_index sender).getD 1 = 0
  · rw [if_pos h0] at h
    exact absurd h (by simp)
  · rw [if_neg h0] at h
    obtain ⟨-, hct, -, -, hlog, hpeers, -, -, hnext, hmatch, hcommit⟩ :=
      update_commit_index_spec _ _ h
    rcases hcommit with hsame | ⟨hlt2, hterm2, hg⟩
    · exact Or.inl hsame
    · right
      refine ⟨hlt2, hterm2, ?_⟩
      have hsor := sorted_sort_desc
        (mapValues (mapInsert n.match_index sender ((mapGet n.next_index sender).getD 1 - 1))
          ++ [n.log.lastIndex])
      have hc := count_le_of_sorted_get _ _ _ hsor hg
      rw [countP_sort_desc] at hc
      rw [hmatch]
      exact hc

def nodeC1w : RaftNode :=
  ⟨"n1", 1, none, NodeRole.Leader, 0, ⟨[⟨1, 1, LogEntryType.Command, []⟩], 0, 0⟩,
   ["n2", "n3"], 150, 0, [], [("n2", 2)], []⟩

def nodeC1w' : RaftNode :=
  { nodeC1w with commit_index := 1, match_index := [("n2", 1)], next_index := [("n2", 2)] }

/-- C1 witness: a concrete success reply on which commit advances to 1. -/
theorem c1_witness :
    nodeC1w'.commit_index = nodeC1w.commit_index ∨
      (nodeC1w.commit_index < nodeC1w'.commit_index ∧
       (∃ e, nodeC1w.log.get nodeC1w'.commit_index = some e ∧
             e.term = nodeC1w.current_term) ∧
       (nodeC1w.peers.length + 1) / 2 + 1 ≤
         (mapValues nodeC1w'.match_index ++ [nodeC1w.log.lastIndex]).countP
           (fun x => decide (nodeC1w'.commit_index ≤ x))) :=
  c1_commit_advance_guard nodeC1w "n2" ⟨1, true⟩ 0 nodeC1w' rfl (by decide) (by decide)

def nodeC1 : RaftNode :=
  ⟨"n1", 2, none, NodeRole.Leader, 0,
   ⟨[⟨2, 1, LogEntryType.Command, []⟩, ⟨1, 2, LogEntryType.Command, []⟩], 0, 0⟩,
   ["n2", "n3"], 150, 0, [], [("n2", 3)], [("n3", 1)]⟩

/-- C1 counterexample: after the success reply from n2, index 1 is covered
by a majority of the cluster (n2 at match 2, n3 at match 1, the leader at
last index 2) and log[1] carries the current term 2, and 1 > commit_index
= 0, so the claimed rule requires commit_index = 1; the source leaves it at
0 because the single examined order statistic is 2 and log[2] has a stale
term. -/
theorem c1_counterexample :
    (handle_append_entries_response nodeC1 "n2" ⟨2, true⟩ 0).map RaftNode.commit_index
        = some 0 ∧
    (nodeC1.peers.length + 1) / 2 + 1 ≤
      ((mapValues (mapInsert nodeC1.match_index "n2" 2) ++ [nodeC1.log.lastIndex]).countP
        (fun x => decide (1 ≤ x))) ∧
    (nodeC1.log.get 1).map LogEntry.term = some nodeC1.current_term ∧
    nodeC1.commit_index = 0 := by decide

/-! Claim C2: follower commit update targets the wrong field. -/

def nodeC2 : RaftNode :=
  ⟨"n2", 1, none, NodeRole.Follower, 0, ⟨[], 0, 0⟩, ["n1", "n3"], 150, 0, [], [], []⟩

def reqC2 : AppendEntriesRequest :=
  ⟨1, "n1", 0, 0, [⟨1, 1, LogEntryType.Command, [7]⟩], 1⟩

/-- C2 failing input: an accepted request with leader_commit = 1 whose
entries make the last index 1 must leave the applier-visible commit index
at min(1, 1) = 1. The source sets the log-level commit_index to 1 but
leaves RaftNode.commit_index — the field apply_committed_entries consults —
at 0, so the subsequent apply loop does nothing. -/
theorem c2_commit_field_mismatch :
    (handle_append_entries nodeC2 reqC2).2.success = true ∧
    (handle_append_entries nodeC2 reqC2).1.log.commit_index = 1 ∧
    min reqC2.leader_commit (handle_append_entries nodeC2 reqC2).1.log.lastIndex = 1 ∧
    (handle_append_entries nodeC2 reqC2).1.commit_index = 0 ∧
    apply_committed_entries (fun _ => some (KvCommand.Set "k" "v"))
        (handle_append_entries nodeC2 reqC2).1 ⟨[]⟩
      = ((handle_append_entries nodeC2 reqC2).1.log, ⟨[]⟩, []) := by decide

/-! Claim C3: leader bookkeeping on a success reply. -/

/-- C3 (amended): on a success reply (no step-down, no panic) the leader
overwrites match_index[sender] with next_index[sender] - 1 (default 1 when
absent) and rewrites next_index[sender] with that same stored value, so
next_index[sender] = match_index[sender] + 1 holds afterwards; the
overwrite carries no monotonic max, so match_index[sender] can decrease
(see the counterexample). -/
theorem c3_success_update (n : RaftNode) (sender : String)
    (resp : AppendEntriesResponse) (now : Nat) (r : RaftNode)
    (hsucc : resp.success = true)
    (hterm : ¬ resp.term > n.current_term)
    (h : handle_append_entries_response n sender resp now = some r) :
    mapGet r.match_index sender = some ((mapGet n.next_index sender).getD 1 - 1) ∧
    mapGet r.next_index sender = some ((mapGet n.next_index sender).getD 1) ∧
    (mapGet n.next_index sender).getD 1
      = ((mapGet n.next_index sender).getD 1 - 1) + 1 := by
  simp only [handle_append_entries_response, hsucc] at h
  rw [if_neg hterm, if_pos trivial] at h
  by_cases h0 : (mapGet n.next_index sender).getD 1 = 0
  · rw [if_pos h0] at h
    exact absurd h (by simp)
  · rw [if_neg h0] at h
    obtain ⟨-, -, -, -, -, -, -, -, hnext, hmatch, -⟩ := update_commit_index_spec _ _ h
    refine ⟨?_, ?_, by omega⟩
    · rw [hmatch]
      exact mapGet_mapInsert_self _ _ _
    · rw [hnext]
      exact mapGet_mapInsert_self _ _ _

def nodeC3w : RaftNode :=
  ⟨"n1", 1, none, NodeRole.Leader, 0, ⟨[], 0, 0⟩, ["n2", "n3"], 150, 0, [], [("n2", 3)], []⟩

def nodeC3w' : RaftNode :=
  { nodeC3w with match_index := [("n2", 2)], next_index := [("n2", 3)] }

/-- C3 witness: a concrete success reply on which the bookkeeping fires. -/
theorem c3_witness :
    mapGet nodeC3w'.match_index "n2" = some ((mapGet nodeC3w.next_index "n2").getD 1 - 1) ∧
    mapGet nodeC3w'.next_index "n2" = some ((mapGet nodeC3w.next_index "n2").getD 1) ∧
    (mapGet nodeC3w.next_index "n2").getD 1
      = ((mapGet nodeC3w.next_index "n2").getD 1 - 1) + 1 :=
  c3_success_update nodeC3w "n2" ⟨1, true⟩ 0 nodeC3w' rfl (by decide) (by decide)

def nodeC3 : RaftNode :=
  ⟨"n1", 1, none, NodeRole.Leader, 0, ⟨[], 0, 0⟩, ["n2", "n3"], 150, 0, [],
   [("n2", 3)], [("n2", 5)]⟩

/-- C3 counterexample: match_index[n2] is 5 before the success reply and 2
afterwards, so the update is not the claimed monotonic max and match_index
decreases. -/
theorem c3_counterexample :
    mapGet nodeC3.match_index "n2" = some 5 ∧
    (handle_append_entries_response nodeC3 "n2" ⟨1, true⟩ 0).map
        (fun r => mapGet r.match_index "n2") = some (some 2) ∧
    (2 : Nat) < 5 := by decide

/-! Claim C4: equal-term AppendEntries and the election timer. -/

/-- C4 (amended): an AppendEntries request whose term equals current_term
leaves a Candidate's role unchanged (the source changes the role only when
req.term > current_term), and handle_append_entries never touches
last_heartbeat, so the election timer is not reset on a passing prev-log
check. -/
theorem c4_equal_term_keeps_candidate (n : RaftNode) (req : AppendEntriesRequest)
    (h1 : req.term = n.current_term) (h2 : n.role = NodeRole.Candidate) :
    (handle_append_entries n req).1.role = NodeRole.Candidate ∧
    (handle_append_entries n req).1.last_heartbeat = n.last_heartbeat := by
  have hlt : ¬ req.term < n.current_term := by omega
  have hgt : ¬ req.term > n.current_term := by omega
  simp only [handle_append_entries]
  rw [if_neg hlt, if_neg hgt]
  repeat' split
  all_goals exact ⟨h2, rfl⟩

def nodeC4 : RaftNode :=
  ⟨"n1", 1, none, NodeRole.Candidate, 0, ⟨[], 0, 0⟩, ["n2", "n3"], 150, 42, ["n1"], [], []⟩

def reqC4 : AppendEntriesRequest := ⟨1, "n2", 0, 0, [], 0⟩

/-- C4 witness: the theorem at a concrete candidate and request. -/
theorem c4_witness :
    (handle_append_entries nodeC4 reqC4).1.role = NodeRole.Candidate ∧
    (handle_append_entries nodeC4 reqC4).1.last_heartbeat = nodeC4.last_heartbeat :=
  c4_equal_term_keeps_candidate nodeC4 reqC4 (by decide) (by decide)

/-- C4 counterexample: a Candidate at term 1 accepts an equal-term
AppendEntries whose prev-log check passes (success reply), yet it stays
Candidate and last_heartbeat is not reset, while the claim requires a
transition to Follower and a timer reset. -/
theorem c4_counterexample :
    (handle_append_entries nodeC4 reqC4).2.success = true ∧
    (handle_append_entries nodeC4 reqC4).1.role ≠ NodeRole.Follower ∧
    (handle_append_entries nodeC4 reqC4).1.last_heartbeat = nodeC4.last_heartbeat := by
  decide

/-! Claim C5: conflict truncation has no commit_index guard. -/

lemma replicate_entry_conflict (log : RaftLog) (e ex : LogEntry)
    (hex : log.get e.index = some ex) (hconf : ex.term ≠ e.term) :
    replicate_entry log e
      = { log with entries := log.entries.filter (fun x => x.index < e.index) ++ [e] } := by
  unfold replicate_entry
  rw [hex]
  show (if ex.term ≠ e.term then
          RaftLog.append
            { log with entries := log.entries.filter (fun x => x.index < e.index) } e
        else log) = _
  rw [if_pos hconf]
  rfl

/-- C5 (amended): conflict repair truncates at the conflicting index with no
commit_index guard. For any current-term single-entry request whose entry
conflicts with the existing entry at the same index, the resulting log is
the old entries strictly below that index followed by the new entry — also
when the conflicting index is at or below commit_index — the reply is
success, and no fatal treatment exists (the node state is otherwise
updated normally). -/
theorem c5_truncation_ignores_commit (n : RaftNode) (req : AppendEntriesRequest)
    (e ex : LogEntry)
    (hterm : req.term = n.current_term)
    (hprev : req.prev_log_index = 0)
    (hent : req.entries = [e])
    (hex : n.log.get e.index = some ex)
    (hconf : ex.term ≠ e.term) :
    (handle_append_entries n req).1.log.entries
        = n.log.entries.filter (fun x => x.index < e.index) ++ [e] ∧
    (handle_append_entries n req).2.success = true ∧
    (handle_append_entries n req).1.commit_index = n.commit_index := by
  have hlt : ¬ req.term < n.current_term := by omega
  have hgt : ¬ req.term > n.current_term := by omega
  have hrep := replicate_entry_conflict n.log e ex hex hconf
  have h00 : ¬ req.prev_log_index > 0 := by omega
  simp only [handle_append_entries, hent, List.foldl_cons, List.foldl_nil]
  rw [if_neg hlt, if_neg hgt, if_neg h00, if_pos rfl]
  refine ⟨?_, rfl, rfl⟩
  rw [hrep]
  split
  · rfl
  · rfl

def nodeC5 : RaftNode :=
  ⟨"n2", 1, none, NodeRole.Follower, 1, ⟨[⟨1, 1, LogEntryType.Command, []⟩], 1, 0⟩,
   ["n1", "n3"], 150, 0, [], [], []⟩

def reqC5 : AppendEntriesRequest :=
  ⟨1, "n1", 0, 0, [⟨2, 1, LogEntryType.Command, [9]⟩], 0⟩

/-- C5 witness: the amended theorem at a node whose conflicting index 1 is
exactly its commit_index. -/
theorem c5_witness :
    (handle_append_entries nodeC5 reqC5).1.log.entries
        = nodeC5.log.entries.filter (fun x => x.index < 1) ++ [⟨2, 1, LogEntryType.Command, [9]⟩] ∧
    (handle_append_entries nodeC5 reqC5).2.success = true ∧
    (handle_append_entries nodeC5 reqC5).1.commit_index = nodeC5.commit_index :=
  c5_truncation_ignores_commit nodeC5 reqC5 ⟨2, 1, LogEntryType.Command, [9]⟩
    ⟨1, 1, LogEntryType.Command, []⟩ (by decide) (by decide) (by decide) (by decide) (by decide)

/-- C5 counterexample: the committed entry at index 1 = commit_index is
replaced by the incoming conflicting entry, and the call succeeds with no
fatal treatment, refuting the claim that entries at or below commit_index
survive every accepted request. -/
theorem c5_counterexample :
    nodeC5.commit_index = 1 ∧
    nodeC5.log.get 1 = some ⟨1, 1, LogEntryType.Command, []⟩ ∧
    (handle_append_entries nodeC5 reqC5).1.log.get 1
        = some ⟨2, 1, LogEntryType.Command, [9]⟩ ∧
    (⟨1, 1, LogEntryType.Command, []⟩ : LogEntry) ≠ ⟨2, 1, LogEntryType.Command, [9]⟩ ∧
    (handle_append_entries nodeC5 reqC5).2.success = true := by decide

/-! Claim C6: next_index lower bound and heartbeat underflow. -/

def nodeC6 : RaftNode :=
  ⟨"n1", 1, none, NodeRole.Leader, 0, ⟨[], 0, 0⟩, ["n2", "n3"], 150, 0, [], [("n2", 1)], []⟩

/-- C6 failing input: a leader whose next_index[n2] is already 1 processes a
failure reply. The source stores next.saturating_sub(1) = 0, dropping
next_index below the claimed bound of 1, and the subsequent heartbeat
construction for n2 computes prev_log_index = 0 - 1, a u64 underflow
(modelled as none). -/
theorem c6_next_index_underflow :
    (handle_append_entries_response nodeC6 "n2" ⟨1, false⟩ 0).map
        (fun r => mapGet r.next_index "n2") = some (some 0) ∧
    (handle_append_entries_response nodeC6 "n2" ⟨1, false⟩ 0).map
        (fun r => heartbeat_request r "n2") = some none := by decide

/-! Claim C7: what become_leader actually does. -/

def nodeC7 : RaftNode :=
  ⟨"n1", 1, none, NodeRole.Candidate, 0, ⟨[], 0, 0⟩, ["n2", "n3"], 150, 0, ["n1"], [], []⟩

/-- C7 counterexample: the candidate reaches the majority and becomes
Leader, but its log is still empty (no Noop entry at the current term was
appended) and next_index / match_index were not initialized for any peer,
refuting the claimed side effects of the transition. -/
theorem c7_counterexample :
    (receive_vote nodeC7 "n2" 1 true 5).role = NodeRole.Leader ∧
    (receive_vote nodeC7 "n2" 1 true 5).log.entries = [] ∧
    (receive_vote nodeC7 "n2" 1 true 5).next_index = [] ∧
    (receive_vote nodeC7 "n2" 1 true 5).match_index = [] ∧
    (receive_vote nodeC7 "n2" 1 true 5).last_heartbeat = 5 := by decide

/-- C7 (amended): when a candidate's tally reaches the majority after
recording the grant, receive_vote transitions it to Leader and resets the
heartbeat instant (send_heartbeat), leaving the log, next_index and
match_index exactly as they were: no Noop entry is appended and no per-peer
index state is initialized. -/
theorem c7_become_leader_effects (n : RaftNode) (voter : String) (term now : Nat)
    (h1 : n.role = NodeRole.Candidate) (h2 : term = n.current_term)
    (h3 : (setInsert n.votes_received voter).length ≥ (n.peers.length + 1) / 2 + 1) :
    receive_vote n voter term true now
      = { n with role := NodeRole.Leader,
                 votes_received := setInsert n.votes_received voter,
                 last_heartbeat := now } := by
  unfold receive_vote
  have hgt : ¬ term > n.current_term := by omega
  rw [if_neg hgt]
  have hsk : ¬ (n.role ≠ NodeRole.Candidate ∨ term < n.current_term) := by
    push_neg
    exact ⟨h1, by omega⟩
  rw [if_neg hsk, if_pos rfl, if_pos h3]
  rfl

def nodeC7w : RaftNode :=
  ⟨"n1", 1, none, NodeRole.Candidate, 0, ⟨[], 0, 0⟩, ["n2", "n3"], 150, 0, ["n1"], [], []⟩

/-- C7 witness: the amended theorem at a concrete majority-reaching vote. -/
theorem c7_witness :
    receive_vote nodeC7w "n2" 1 true 5
      = { nodeC7w with role := NodeRole.Leader,
                       votes_received := setInsert nodeC7w.votes_received "n2",
                       last_heartbeat := 5 } :=
  c7_become_leader_effects nodeC7w "n2" 1 5 (by decide) (by decide) (by decide)

/-! Claim C8: vote tallying and step-down. -/

/-- C8: receive_vote tallies a grant only when the node is still a
Candidate and the response term equals the current term; a strictly higher
term causes a step-down to Follower at that term even when vote_granted is
false; lower-term and non-candidate responses leave the state unchanged;
and after recording a grant the node is Leader exactly when the number of
distinct granting voters in votes_received (the candidate itself included
since start_election) reaches floor(N/2) + 1 for N = peers + self. -/
theorem c8_vote_tally (n : RaftNode) (voter : String) (term : Nat)
    (granted : Bool) (now : Nat) :
    (n.current_term < term →
       receive_vote n voter term granted now = become_follower n term now) ∧
    (term ≤ n.current_term → n.role ≠ NodeRole.Candidate →
       receive_vote n voter term granted now = n) ∧
    (term < n.current_term →
       receive_vote n voter term granted now = n) ∧
    (n.role = NodeRole.Candidate → term = n.current_term →
       receive_vote n voter term false now = n) ∧
    (n.role = NodeRole.Candidate → term = n.current_term →
       (receive_vote n voter term true now).votes_received
           = setInsert n.votes_received voter ∧
       ((receive_vote n voter term true now).role = NodeRole.Leader ↔
          (n.peers.length + 1) / 2 + 1 ≤ (setInsert n.votes_received voter).length)) := by
  refine ⟨?_, ?_, ?_, ?_, ?_⟩
  · intro h
    unfold receive_vote
    rw [if_pos h]
  · intro h1 h2
    unfold receive_vote
    rw [if_neg (by omega), if_pos (Or.inl h2)]
  · intro h
    unfold receive_vote
    rw [if_neg (by omega), if_pos (Or.inr h)]
  · intro h1 h2
    unfold receive_vote
    rw [if_neg (by omega), if_neg (by push_neg; exact ⟨h1, by omega⟩)]
    rfl
  · intro h1 h2
    unfold receive_vote
    rw [if_neg (by omega), if_neg (by push_neg; exact ⟨h1, by omega⟩), if_pos rfl]
    by_cases hm : (setInsert n.votes_received voter).length ≥ (n.peers.length + 1) / 2 + 1
    · rw [if_pos hm]
      refine ⟨rfl, ?_, ?_⟩
      · intro _
        exact hm
      · intro _
        rfl
    · rw [if_neg hm]
      refine ⟨rfl, ?_, ?_⟩
      · intro hrole
        have hc : NodeRole.Candidate = NodeRole.Leader := by
          rw [← h1]
          exact hrole
        exact absurd hc (by simp)
      · intro hthr
        exact absurd hthr hm

def nodeC8 : RaftNode :=
  ⟨"n1", 1, none, NodeRole.Candidate, 0, ⟨[], 0, 0⟩, ["n2", "n3"], 150, 0, ["n1"], [], []⟩

/-- C8 witness: a higher-term non-grant steps the candidate down, and at
the concrete threshold the grant from n2 makes it Leader. -/
theorem c8_witness :
    receive_vote nodeC8 "n2" 2 false 7 = become_follower nodeC8 2 7 ∧
    ((receive_vote nodeC8 "n2" 1 true 7).role = NodeRole.Leader ↔
       (nodeC8.peers.length + 1) / 2 + 1 ≤ (setInsert nodeC8.votes_received "n2").length) :=
  ⟨(c8_vote_tally nodeC8 "n2" 2 false 7).1 (by decide),
   ((c8_vote_tally nodeC8 "n2" 1 true 7).2.2.2.2 (by decide) (by decide)).2⟩

/-! Claim C9: the apply loop. -/

/-- C9: when the log holds an entry at every index from last_applied + 1 up
to commit_index, apply_committed_entries terminates with last_applied =
commit_index, leaving entries and the log-level commit field untouched, and
its effect on the state machine and the error report equals the in-order
fold of the per-entry rule — Command entries that deserialize are applied,
Noop and Configuration entries advance without a state-machine apply, and a
Command whose payload fails to deserialize is recorded as an error while
the loop still advances — over the pending indexes, which are strictly
increasing. -/
theorem c9_apply_loop (decode : Bytes → Option KvCommand) (n : RaftNode)
    (sm : KeyValueStore)
    (h1 : n.log.last_applied ≤ n.commit_index)
    (h2 : ∀ i ∈ pending_indices n.log.last_applied n.commit_index, (n.log.get i).isSome) :
    apply_committed_entries decode n sm
        = ({ n.log with last_applied := n.commit_index },
           spec_apply_all decode
             ((pending_indices n.log.last_applied n.commit_index).filterMap n.log.get)
             (sm, [])) ∧
    (pending_indices n.log.last_applied n.commit_index).Pairwise (· < ·) :=
  ⟨apply_go_spec decode n.commit_index _ n.log sm [] rfl h1 h2,
   pending_indices_increasing _ _⟩

def nodeC9 : RaftNode :=
  ⟨"n1", 1, none, NodeRole.Follower, 3,
   ⟨[⟨1, 1, LogEntryType.Command, [0]⟩, ⟨1, 2, LogEntryType.Noop, []⟩,
     ⟨1, 3, LogEntryType.Command, [1]⟩], 0, 0⟩,
   ["n2", "n3"], 150, 0, [], [], []⟩

def decodeC9 : Bytes → Option KvCommand :=
  fun b => if b = [0] then some (KvCommand.Set "k" "v") else none

/-- C9 witness: a three-entry log with a decodable Command, a Noop, and an
undecodable Command. -/
theorem c9_witness :
    apply_committed_entries decodeC9 nodeC9 ⟨[]⟩
        = ({ nodeC9.log with last_applied := nodeC9.commit_index },
           spec_apply_all decodeC9
             ((pending_indices nodeC9.log.last_applied nodeC9.commit_index).filterMap
               nodeC9.log.get)
             (⟨[]⟩, [])) ∧
    (pending_indices nodeC9.log.last_applied nodeC9.commit_index).Pairwise (· < ·) :=
  c9_apply_loop decodeC9 nodeC9 ⟨[]⟩ (by decide) (by decide)

/-! Claim C10: state-machine snapshot round-trip. -/

/-- C10: for every command sequence S and every deserializer that inverts
the serializer (the bincode round-trip contract), applying S to a fresh
KeyValueStore, taking snapshot(), and restoring those bytes into a second
fresh store succeeds and yields the identical key-value state — hence
identical get results and identical responses to every subsequent Get. -/
theorem c10_snapshot_roundtrip {β : Type}
    (enc : List (String × String) → β) (dec : β → Option (List (String × String)))
    (hcodec : ∀ d, dec (enc d) = some d) (S : List KvCommand) :
    ∃ s2, KeyValueStore.restore dec ⟨[]⟩ (KeyValueStore.snapshot enc (apply_all S ⟨[]⟩))
            = some s2 ∧
          s2.data = (apply_all S ⟨[]⟩).data ∧
          (∀ k, s2.get k = (apply_all S ⟨[]⟩).get k) ∧
          (∀ k, (s2.apply (KvCommand.Get k)).2
              = ((apply_all S ⟨[]⟩).apply (KvCommand.Get k)).2) := by
  refine ⟨apply_all S ⟨[]⟩, ?_, rfl, fun k => rfl, fun k => rfl⟩
  unfold KeyValueStore.restore KeyValueStore.snapshot
  rw [hcodec]
  rfl

/-- C10 witness: the round-trip at a one-command sequence with the identity
codec pair. -/
theorem c10_witness :
    ∃ s2, KeyValueStore.restore (fun d => some d) ⟨[]⟩
            (KeyValueStore.snapshot (fun d => d)
              (apply_all [KvCommand.Set "alpha" "beta"] ⟨[]⟩)) = some s2 ∧
          s2.data = (apply_all [KvCommand.Set "alpha" "beta"] ⟨[]⟩).data ∧
          (∀ k, s2.get k = (apply_all [KvCommand.Set "alpha" "beta"] ⟨[]⟩).get k) ∧
          (∀ k, (s2.apply (KvCommand.Get k)).2
              = ((apply_all [KvCommand.Set "alpha" "beta"] ⟨[]⟩).apply (KvCommand.Get k)).2) :=
  c10_snapshot_roundtrip (fun d => d) (fun d => some d) (fun d => rfl)
    [KvCommand.Set "alpha" "beta"]

end Nexus
